import Mathlib

/-
Shallow embedding of `src/headlines/umba_harvest.py` (the UMBA headline
harvester).  Strings are modelled as `List Char`; files as their raw
character contents; the network as a function from URL to an optional
response.  Library behaviour the script relies on is modelled explicitly:
`csv.writer` (excel dialect, QUOTE_MINIMAL, CRLF line terminator),
Python text-file line iteration with `newline=""` (universal newlines,
terminators kept), `str.strip`, and `urllib.parse.urljoin`/`urlparse`
restricted to the URL shapes the harvester meets (no dot-segment
normalisation).
-/

abbrev Str := List Char

def chars (s : String) : Str := s.data

/-- Python `str.startswith` on list-of-char strings. -/
def beginsWith : Str → Str → Bool
  | [], _ => true
  | _ :: _, [] => false
  | p :: ps, c :: cs => p == c && beginsWith ps cs

/-- The characters Python `str.strip()` removes (ASCII whitespace). -/
def isPySpace (c : Char) : Bool :=
  c == ' ' || c == '\t' || c == '\n' || c == '\r' || c == '\x0b' || c == '\x0c'

/-- Python `str.strip()`. -/
def pyStrip (s : Str) : Str :=
  ((s.dropWhile isPySpace).reverse.dropWhile isPySpace).reverse

/-- The headline record `(date, domain, title, link)` built by the harvester. -/
structure Record where
  date : Str
  domain : Str
  title : Str
  link : Str
deriving DecidableEq

/-- Constant `MAX_ITEMS_PER_SOURCE = 50` from the script's configuration block. -/
def MAX_ITEMS_PER_SOURCE : Nat := 50

/-- Characters allowed in a URL scheme by `urllib.parse` (`scheme_chars`). -/
def isSchemeChar (c : Char) : Bool :=
  c.isAlpha || c.isDigit || c == '+' || c == '-' || c == '.'

def splitSchemeAux (acc : Str) : Str → Option (Str × Str)
  | [] => none
  | c :: rest =>
    if c == ':' then
      if acc.isEmpty then none else some (acc.reverse, rest)
    else if isSchemeChar c then splitSchemeAux (c :: acc) rest
    else none

/-- Split `scheme:rest` as `urllib.parse` does: the part before the first
`:` is a scheme when it is nonempty, made of scheme characters, and led
by a letter. -/
def splitScheme (s : Str) : Option (Str × Str) :=
  match splitSchemeAux [] s with
  | some p =>
    match p.1 with
    | c :: _ => if c.isAlpha then some p else none
    | [] => none
  | none => none

/-- Model of `domain_from_url`: `urlparse(url).netloc or ""` — the authority after
`//`, cut at the first `/`, `?` or `#`; empty when the URL has no `//`
part. -/
def domain_from_url (url : Str) : Str :=
  let rest := match splitScheme url with | some p => p.2 | none => url
  if beginsWith (chars ("//")) rest then
    (rest.drop 2).takeWhile (fun c => c != '/' && c != '?' && c != '#')
  else []

/-
CSV model: `csv.writer` with the default excel dialect (QUOTE_MINIMAL,
delimiter `,`, quotechar `"`, lineterminator CRLF), and the script's own
hand-built "canonical line" used for dedupe.
-/

/-- The `title.replace('"', '""')` step of the canonical-line construction. -/
def doubleQuotes : Str → Str
  | [] => []
  | c :: cs => if c == '"' then '"' :: '"' :: doubleQuotes cs else c :: doubleQuotes cs

def quoteWrap (s : Str) : Str := '"' :: (s ++ ['"'])

/-- The dedupe line `append_entries_to_csv` builds by hand:
`",".join([date, domain, '"' + title.replace('"','""') + '"', '"' + link + '"'])`. -/
def canonicalLine (r : Record) : Str :=
  r.date ++ [','] ++ r.domain ++ [','] ++ quoteWrap (doubleQuotes r.title)
    ++ [','] ++ quoteWrap r.link

/-- A CSV field must be quoted under QUOTE_MINIMAL iff it contains the
delimiter, the quote character, or a line-terminator character. -/
def isCsvSpecial (c : Char) : Bool :=
  c == ',' || c == '"' || c == '\r' || c == '\n'

def needsQuote (f : Str) : Bool := f.any isCsvSpecial

/-- Quote doubling applied by `csv.writer` inside a quoted field. -/
def escapeField : Str → Str
  | [] => []
  | c :: cs => if c == '"' then '"' :: '"' :: escapeField cs else c :: escapeField cs

/-- One CSV field as `csv.writer` (QUOTE_MINIMAL) emits it. -/
def writeField (f : Str) : Str :=
  if needsQuote f then quoteWrap (escapeField f) else f

/-- The line `csv.writer.writerow([date, domain, title, link])` emits,
without the terminator. -/
def serializeRow (r : Record) : Str :=
  writeField r.date ++ [','] ++ writeField r.domain ++ [','] ++ writeField r.title
    ++ [','] ++ writeField r.link

/-- The `writerow` output including the excel-dialect CRLF terminator. -/
def writerowStr (r : Record) : Str := serializeRow r ++ ['\r', '\n']

/-
File-line model: iterating a Python text file opened with `newline=""`
yields lines split at `\r\n`, `\r` or `\n`, terminators kept
untranslated; a final unterminated line is yielded too.
-/

def pyLinesAux (acc : Str) : Str → List Str
  | [] => if acc.isEmpty then [] else [acc.reverse]
  | [c] =>
    if c == '\r' then [acc.reverse ++ ['\r']]
    else if c == '\n' then [acc.reverse ++ ['\n']]
    else [(c :: acc).reverse]
  | c :: d :: rest =>
    if c == '\r' then
      if d == '\n' then (acc.reverse ++ ['\r', '\n']) :: pyLinesAux [] rest
      else (acc.reverse ++ ['\r']) :: pyLinesAux [] (d :: rest)
    else if c == '\n' then (acc.reverse ++ ['\n']) :: pyLinesAux [] (d :: rest)
    else pyLinesAux (c :: acc) (d :: rest)

/-- The lines of a file's contents as Python file iteration yields them. -/
def pyLines (s : Str) : List Str := pyLinesAux [] s

/-- Python `line.rstrip("\n")`. -/
def rstripNL (s : Str) : Str := (s.reverse.dropWhile (fun c => c == '\n')).reverse

/-- Model of `load_existing_lines`: every line of the log file with trailing `\n`
stripped, collected for membership tests (a missing file is the empty
contents). -/
def load_existing_lines (content : Str) : List Str :=
  (pyLines content).map rstripNL

/-- The entry loop of `append_entries_to_csv`: skip a record whose
canonical line is already known, otherwise write the row, remember the
canonical line and bump the counter. -/
def appendLoop (existing : List Str) (content : Str) (count : Nat) :
    List Record → Str × Nat
  | [] => (content, count)
  | r :: rs =>
    let line := canonicalLine r
    if line ∈ existing then appendLoop existing content count rs
    else appendLoop (line :: existing) (content ++ writerowStr r) (count + 1) rs

/-- Model of `append_entries_to_csv`: the new file contents and the returned
`new_count`. -/
def append_entries_to_csv (content : Str) (entries : List Record) : Str × Nat :=
  appendLoop (load_existing_lines content) content 0 entries

/-- The record used as concrete input in several statements below. -/
def rec0 : Record :=
  ⟨chars ("2025-01-01"), chars ("example.com"), chars ("Hello"),
    chars ("https://example.com/a")⟩

/-
URL joining: a model of `urllib.parse.urljoin` covering the shapes of
reference the scraper meets — absolute URLs, network-path (`//…`),
absolute-path (`/…`), fragment-only, query-only, and relative-path
references — without dot-segment normalisation.
-/

/-- Strip a query and fragment (everything from the first `?` or `#`). -/
def stripQF (s : Str) : Str := s.takeWhile (fun c => c != '?' && c != '#')

/-- The part of a path up to and including its last `/` (empty when the
path has no `/`). -/
def dirOf (path : Str) : Str := (path.reverse.dropWhile (fun c => c != '/')).reverse

/-- The `scheme://netloc` part of a base URL (empty for a scheme-less base with no
authority). -/
def schemeAuthority (base : Str) : Str :=
  match splitScheme base with
  | some p =>
    if beginsWith (chars ("//")) p.2 then
      p.1 ++ ':' :: '/' :: '/' ::
        ((p.2.drop 2).takeWhile (fun c => c != '/' && c != '?' && c != '#'))
    else p.1 ++ [':']
  | none =>
    if beginsWith (chars ("//")) base then
      '/' :: '/' :: ((base.drop 2).takeWhile (fun c => c != '/' && c != '?' && c != '#'))
    else []

/-- The base's scheme, authority and path directory, against which a
relative-path reference is resolved. -/
def pathMerge (base : Str) : Str :=
  match splitScheme base with
  | some p =>
    if beginsWith (chars ("//")) p.2 then
      p.1 ++ ':' :: '/' :: '/' ::
        (((p.2.drop 2).takeWhile (fun c => c != '/' && c != '?' && c != '#')) ++
          (if (stripQF ((p.2.drop 2).dropWhile (fun c => c != '/' && c != '?' && c != '#'))).isEmpty
           then ['/']
           else dirOf (stripQF ((p.2.drop 2).dropWhile (fun c => c != '/' && c != '?' && c != '#')))))
    else p.1 ++ ':' :: dirOf (stripQF p.2)
  | none => dirOf (stripQF base)

/-- Model of `urllib.parse.urljoin(base, href)`. -/
def urljoin (base href : Str) : Str :=
  if href.isEmpty then base
  else if (splitScheme href).isSome then href
  else if beginsWith (chars ("//")) href then
    match splitScheme base with
    | some p => p.1 ++ ':' :: href
    | none => href
  else if beginsWith (chars ("/")) href then schemeAuthority base ++ href
  else if beginsWith (chars ("#")) href then (base.takeWhile (fun c => c != '#')) ++ href
  else if beginsWith (chars ("?")) href then stripQF base ++ href
  else pathMerge base ++ href

/-
The harvest pipeline.  `feedparser` output, BeautifulSoup documents,
`dt.date.today()` and the network are the script's external inputs; they
are abstracted to the data the script actually reads from them.
-/

/-- A `feedparser` entry as the script reads it: its raw `title` and
`link` fields and, when one of `published_parsed` / `updated_parsed` /
`created_parsed` is present and convertible, the resulting ISO date. -/
structure FeedEntry where
  title : Str
  link : Str
  pubDate : Option Str
deriving DecidableEq

/-- An `<a href=…>` element as the script reads it: `get_text(strip=True)`
and the `href` attribute. -/
structure ALink where
  text : Str
  href : Str
deriving DecidableEq

/-- An `<article>` / `<h1>`–`<h3>` block, abstracted to
`tag.find("a", href=True)`. -/
structure Tag where
  firstA : Option ALink
deriving DecidableEq

/-- A parsed HTML document, abstracted to the tag lists the script
iterates: `soup.find_all("article")` and `soup.find_all("h1"/"h2"/"h3")`. -/
structure Soup where
  articles : List Tag
  h1 : List Tag
  h2 : List Tag
  h3 : List Tag
deriving DecidableEq

/-- One candidate pass of `harvest_html`: for each tag take its first
link, keep `(title, href)` when both are truthy. -/
def tagCandidates : List Tag → List (Str × Str)
  | [] => []
  | t :: ts =>
    match t.firstA with
    | none => tagCandidates ts
    | some a =>
      if a.text.isEmpty || a.href.isEmpty then tagCandidates ts
      else (a.text, a.href) :: tagCandidates ts

/-- The candidate list of `harvest_html`: the `<article>` pass, falling
back to the `h1`/`h2`/`h3` passes only when it found nothing. -/
def htmlCandidates (soup : Soup) : List (Str × Str) :=
  let cands := tagCandidates soup.articles
  if cands.isEmpty then
    tagCandidates soup.h1 ++ tagCandidates soup.h2 ++ tagCandidates soup.h3
  else cands

/-- The normalise-and-limit loop of `harvest_html`: join each href
against the page URL and drop `(title, link)` pairs already seen. -/
def dedupLoop (url today dom : Str) (seen : List (Str × Str)) :
    List (Str × Str) → List Record
  | [] => []
  | (title, href) :: rest =>
    let link := urljoin url href
    if (title, link) ∈ seen then dedupLoop url today dom seen rest
    else ⟨today, dom, title, link⟩ :: dedupLoop url today dom ((title, link) :: seen) rest

/-- Model of `harvest_html(url, resp)`; `today` is `today_iso()`. -/
def harvest_html (url : Str) (soup : Soup) (today : Str) : List Record :=
  dedupLoop url today (domain_from_url url) []
    ((htmlCandidates soup).take MAX_ITEMS_PER_SOURCE)

/-- The entry loop of `harvest_rss`: strip title and link, skip entries
missing either, date the record with the entry's parsed date or today. -/
def rssLoop (dom today : Str) : List FeedEntry → List Record
  | [] => []
  | e :: es =>
    let title := pyStrip e.title
    let link := pyStrip e.link
    if title.isEmpty || link.isEmpty then rssLoop dom today es
    else ⟨e.pubDate.getD today, dom, title, link⟩ :: rssLoop dom today es

/-- Model of `harvest_rss(url, resp)`: nothing when the parse found no entries,
otherwise the entry loop over the first `MAX_ITEMS_PER_SOURCE` entries. -/
def harvest_rss (url : Str) (feedEntries : List FeedEntry) (today : Str) : List Record :=
  if feedEntries.isEmpty then []
  else rssLoop (domain_from_url url) today (feedEntries.take MAX_ITEMS_PER_SOURCE)

/-- A fetched response, abstracted to what the two extractors read from
it: the feed entries `feedparser.parse(resp.content)` yields and the
parsed HTML document of `resp.text`. -/
structure Response where
  feedEntries : List FeedEntry
  soup : Soup
deriving DecidableEq

/-- Model of `harvest_one_url`: fetch (here `F`, the network); on failure return
nothing; otherwise feed extraction first, HTML heuristics only when it
yielded zero entries. -/
def harvest_one_url (F : Str → Option Response) (url today : Str) : List Record :=
  match F url with
  | none => []
  | some resp =>
    let rss_entries := harvest_rss url resp.feedEntries today
    if rss_entries.isEmpty then harvest_html url resp.soup today
    else rss_entries

/-- The outlet loop of `harvest_all_outlets`, over the URL list read
from the outlets file. -/
def harvest_all_outlets (F : Str → Option Response) (today : Str) :
    List Str → List Record
  | [] => []
  | url :: urls => harvest_one_url F url today ++ harvest_all_outlets F today urls

/-- Model of `read_outlet_urls`, over the lines of the outlets file: strip each
line, skip blanks and `#` comments, keep lines starting with `http://`
or `https://`. -/
def read_outlet_urls : List Str → List Str
  | [] => []
  | l :: ls =>
    let line := pyStrip l
    if line.isEmpty || beginsWith (chars ("#")) line then read_outlet_urls ls
    else if beginsWith (chars ("http://")) line || beginsWith (chars ("https://")) line then
      line :: read_outlet_urls ls
    else read_outlet_urls ls

/-
CSV reading, for the round-trip property: a standard CSV field scanner
(quoted fields with doubled quotes, unquoted fields up to the next
delimiter).
-/

/-- Scan the inside of a quoted field: `""` is a literal quote, a lone
`"` closes the field; returns the field and the remainder after the
closing quote. -/
def scanQuoted : Str → Option (Str × Str)
  | [] => none
  | [c] => if c == '"' then some ([], []) else none
  | c :: d :: rest =>
    if c == '"' then
      if d == '"' then (scanQuoted rest).map (fun p => ('"' :: p.1, p.2))
      else some ([], d :: rest)
    else (scanQuoted (d :: rest)).map (fun p => (c :: p.1, p.2))

/-- Scan an unquoted field: everything up to the next `,`. -/
def scanRaw : Str → Str × Str
  | [] => ([], [])
  | c :: rest =>
    if c == ',' then ([], c :: rest)
    else
      let p := scanRaw rest
      (c :: p.1, p.2)

/-- Parse one CSV field; the remainder starts at the separating `,` or
is empty at end of line. -/
def parseField (s : Str) : Str × Str :=
  match s with
  | [] => ([], [])
  | c :: rest =>
    if c == '"' then
      match scanQuoted rest with
      | some p => p
      | none => (rest, [])
    else scanRaw s

/-- Parse the fields of a CSV line (fuelled by the line length). -/
def parseFields : Nat → Str → List Str
  | 0, _ => []
  | n + 1, s =>
    let p := parseField s
    match p.2 with
    | ',' :: rest => p.1 :: parseFields n rest
    | _ => [p.1]

/-- Parse a CSV line into its fields. -/
def parseCSVRow (s : Str) : List Str := parseFields (s.length + 1) s

/-
Concrete inputs used by closed statements below.
-/

/-- A feed entry with a relative link. -/
def relEntry : FeedEntry := ⟨chars ("T"), chars ("/a"), none⟩

/-- A record whose title contains quote characters. -/
def recQ : Record :=
  ⟨chars ("2025-01-01"), chars ("ex.com"), chars ("say \"hi\""), chars ("https://e/a")⟩

/-- A feed entry with title, link and a parsed publication date. -/
def feedDemo : FeedEntry :=
  ⟨chars ("Quake hits"), chars ("https://news.example/q"), some (chars ("2025-01-02"))⟩

/-- The record `harvest_rss` builds from `feedDemo`. -/
def recDemo : Record :=
  ⟨chars ("2025-01-02"), chars ("news.example"), chars ("Quake hits"),
    chars ("https://news.example/q")⟩

def urlDemo : Str := chars ("https://news.example/feed")

def todayDemo : Str := chars ("2025-01-03")

/-- A document with one `<article>` holding a link. -/
def soupDemo : Soup := ⟨[⟨some ⟨chars ("Title A"), chars ("/art/a")⟩⟩], [], [], []⟩

/-- A response whose feed parse yields one entry. -/
def respDemo : Response := ⟨[feedDemo], soupDemo⟩

/-- A response whose feed parse yields no entries. -/
def respNoFeed : Response := ⟨[], soupDemo⟩

/-- The record `harvest_html` builds from `soupDemo` fetched at `urlDemo`. -/
def recHtmlDemo : Record :=
  ⟨todayDemo, chars ("news.example"), chars ("Title A"),
    chars ("https://news.example/art/a")⟩

/-
Helper lemmas.
-/

theorem beginsWith_self_append (p q : Str) : beginsWith p (p ++ q) = true := by
  induction p with
  | nil => rfl
  | cons c cs ih => simpa [beginsWith] using ih

theorem beginsWith_exists {p s : Str} (h : beginsWith p s = true) : ∃ q, s = p ++ q := by
  induction p generalizing s with
  | nil => exact ⟨s, rfl⟩
  | cons c cs ih =>
    cases s with
    | nil => simp [beginsWith] at h
    | cons d ds =>
      simp only [beginsWith, Bool.and_eq_true, beq_iff_eq] at h
      obtain ⟨rfl, h2⟩ := h
      obtain ⟨q, rfl⟩ := ih h2
      exact ⟨q, rfl⟩

/-- Claim C1: re-running the harvester against an unchanged feed is NOT
idempotent.  Appending `rec0` to an empty log and then appending it
again reports one new row the second time and changes the file: the
hand-built canonical dedupe line (always-quoted fields, no terminator)
never matches the `csv.writer` output that `load_existing_lines` reads
back, so the second run re-adds the row. -/
theorem c1_second_append_adds_row :
    (append_entries_to_csv (append_entries_to_csv [] [rec0]).1 [rec0]).2 = 1 ∧
    (append_entries_to_csv (append_entries_to_csv [] [rec0]).1 [rec0]).1 ≠
      (append_entries_to_csv [] [rec0]).1 := by
  constructor
  · decide
  · decide

/-- Claim C2: tuple uniqueness of the persisted log fails.  Starting
from the empty log, appending `rec0` and then appending it again leaves
two identical lines — the `csv.writer` serialisation of the same
(date, domain, title, link) tuple — in the file. -/
theorem c2_duplicate_tuple_lines :
    (load_existing_lines
        (append_entries_to_csv (append_entries_to_csv [] [rec0]).1 [rec0]).1).count
      (serializeRow rec0 ++ ['\r']) = 2 := by
  decide

/-- Claim C10: `read_outlet_urls` keeps exactly the stripped lines that
start with `http://` or `https://`, in file order; blank lines, comment
lines and lines with any other scheme are silently dropped. -/
theorem c10_outlet_url_filtering (ls : List Str) :
    read_outlet_urls ls =
      (ls.map pyStrip).filter
        (fun l => beginsWith (chars ("http://")) l || beginsWith (chars ("https://")) l) := by
  induction ls with
  | nil => rfl
  | cons l ls ih =>
    simp only [read_outlet_urls, List.map_cons, List.filter_cons]
    rcases hs : pyStrip l with _ | ⟨c, cs⟩
    · simpa [beginsWith] using ih
    · by_cases hc : c = '#'
      · subst hc
        simpa [beginsWith] using ih
      · rw [if_neg (by simp [beginsWith, Ne.symm hc])]
        by_cases hh :
            (beginsWith (chars ("http://")) (c :: cs) ||
              beginsWith (chars ("https://")) (c :: cs)) = true
        · rw [if_pos hh, if_pos hh, ih]
        · rw [if_neg hh, if_neg hh, ih]

theorem rssLoop_length_le (dom today : Str) (es : List FeedEntry) :
    (rssLoop dom today es).length ≤ es.length := by
  induction es with
  | nil => simp [rssLoop]
  | cons e es ih =>
    simp only [rssLoop]
    split
    · exact Nat.le_succ_of_le ih
    · simpa using ih

theorem dedupLoop_length_le (url today dom : Str) (seen : List (Str × Str))
    (cs : List (Str × Str)) :
    (dedupLoop url today dom seen cs).length ≤ cs.length := by
  induction cs generalizing seen with
  | nil => simp [dedupLoop]
  | cons p cs ih =>
    simp only [dedupLoop]
    split
    · exact Nat.le_succ_of_le (ih seen)
    · simpa using ih _

/-- Claim C5: each extractor returns at most `MAX_ITEMS_PER_SOURCE`
(50) records per outlet response. -/
theorem c5_results_capped (url today : Str) (es : List FeedEntry) (soup : Soup) :
    (harvest_rss url es today).length ≤ MAX_ITEMS_PER_SOURCE ∧
    (harvest_html url soup today).length ≤ MAX_ITEMS_PER_SOURCE := by
  constructor
  · unfold harvest_rss
    split
    · simp
    · exact le_trans (rssLoop_length_le _ _ _) (List.length_take_le _ _)
  · exact le_trans (dedupLoop_length_le _ _ _ _ _) (List.length_take_le _ _)

theorem rssLoop_mem {dom today : Str} {es : List FeedEntry} {r : Record}
    (h : r ∈ rssLoop dom today es) :
    ∃ e ∈ es, r = ⟨e.pubDate.getD today, dom, pyStrip e.title, pyStrip e.link⟩ ∧
      pyStrip e.title ≠ [] ∧ pyStrip e.link ≠ [] := by
  induction es with
  | nil => simp [rssLoop] at h
  | cons e es ih =>
    simp only [rssLoop] at h
    split at h
    · obtain ⟨e', he', hr⟩ := ih h
      exact ⟨e', List.mem_cons_of_mem _ he', hr⟩
    · rename_i hcond
      rw [List.mem_cons] at h
      rcases h with h | h
      · refine ⟨e, List.mem_cons_self _ _, h, ?_, ?_⟩
        · intro hnil
          exact hcond (by simp [List.isEmpty_iff, hnil])
        · intro hnil
          exact hcond (by simp [List.isEmpty_iff, hnil])
      · obtain ⟨e', he', hr⟩ := ih h
        exact ⟨e', List.mem_cons_of_mem _ he', hr⟩

theorem tagCandidates_mem {ts : List Tag} {p : Str × Str} (h : p ∈ tagCandidates ts) :
    p.1 ≠ [] ∧ p.2 ≠ [] := by
  induction ts with
  | nil => simp [tagCandidates] at h
  | cons t ts ih =>
    rw [tagCandidates] at h
    split at h
    · exact ih h
    · split at h
      · exact ih h
      · rename_i a hcond
        rw [List.mem_cons] at h
        rcases h with rfl | h
        · rw [Bool.or_eq_true] at hcond
          push_neg at hcond
          constructor
          · intro hnil
            exact hcond.1 (by simpa [List.isEmpty_iff] using hnil)
          · intro hnil
            exact hcond.2 (by simpa [List.isEmpty_iff] using hnil)
        · exact ih h

theorem htmlCandidates_mem {soup : Soup} {p : Str × Str} (h : p ∈ htmlCandidates soup) :
    p.1 ≠ [] ∧ p.2 ≠ [] := by
  rw [htmlCandidates] at h
  split at h
  · rcases List.mem_append.1 h with h12 | h3m
    · rcases List.mem_append.1 h12 with h1m | h2m
      · exact tagCandidates_mem h1m
      · exact tagCandidates_mem h2m
    · exact tagCandidates_mem h3m
  · exact tagCandidates_mem h

theorem dedupLoop_mem {url today dom : Str} {seen : List (Str × Str)}
    {cs : List (Str × Str)} {r : Record} (h : r ∈ dedupLoop url today dom seen cs) :
    ∃ p ∈ cs, r = ⟨today, dom, p.1, urljoin url p.2⟩ := by
  induction cs generalizing seen with
  | nil => simp [dedupLoop] at h
  | cons p cs ih =>
    rw [dedupLoop] at h
    split at h
    · obtain ⟨p', hp', hr⟩ := ih h
      exact ⟨p', List.mem_cons_of_mem _ hp', hr⟩
    · rw [List.mem_cons] at h
      rcases h with rfl | h
      · exact ⟨p, List.mem_cons_self _ _, rfl⟩
      · obtain ⟨p', hp', hr⟩ := ih h
        exact ⟨p', List.mem_cons_of_mem _ hp', hr⟩

theorem urljoin_ne_nil {base href : Str} (h : href ≠ []) : urljoin base href ≠ [] := by
  rw [urljoin]
  rw [if_neg (by simp [List.isEmpty_iff, h])]
  split
  · exact h
  split
  · split
    · simp
    · exact h
  split
  · simp [schemeAuthority, List.append_eq_nil, h]
  split
  · simp [List.append_eq_nil, h]
  split
  · simp [List.append_eq_nil, h]
  · simp [List.append_eq_nil, h]

/-- Claim C6: every record returned by `harvest_rss` or `harvest_html`
has a non-empty title and a non-empty link: both extractors skip
entries missing either field, and joining a non-empty href against the
page URL cannot produce an empty link. -/
theorem c6_no_empty_title_or_link (url today : Str) (es : List FeedEntry) (soup : Soup)
    (r : Record) :
    (r ∈ harvest_rss url es today → r.title ≠ [] ∧ r.link ≠ []) ∧
    (r ∈ harvest_html url soup today → r.title ≠ [] ∧ r.link ≠ []) := by
  constructor
  · intro h
    rw [harvest_rss] at h
    split at h
    · simp at h
    · obtain ⟨e, -, rfl, ht, hl⟩ := rssLoop_mem h
      exact ⟨ht, hl⟩
  · intro h
    rw [harvest_html] at h
    obtain ⟨p, hp, rfl⟩ := dedupLoop_mem h
    have hp' := htmlCandidates_mem (List.take_subset _ _ hp)
    exact ⟨hp'.1, urljoin_ne_nil hp'.2⟩

/-- Witness for C6 at a concrete feed entry. -/
theorem c6_witness :
    recDemo ∈ harvest_rss urlDemo [feedDemo] todayDemo ∧
    recDemo.title ≠ [] ∧ recDemo.link ≠ [] := by
  have hmem : recDemo ∈ harvest_rss urlDemo [feedDemo] todayDemo := by decide
  exact ⟨hmem, (c6_no_empty_title_or_link urlDemo todayDemo [feedDemo] soupDemo recDemo).1 hmem⟩

/-- Claim C7: extraction is two-tier with a fixed order — feed parsing
is used whenever it yields entries, the HTML heuristics run only when
it yields none; inside the HTML heuristics, the `<article>` pass wins
whenever it found candidates and the `h1`–`h3` passes are consulted
only when it found none. -/
theorem c7_two_tier_order (F : Str → Option Response) (url today : Str) (resp : Response)
    (soup : Soup) :
    (F url = some resp → harvest_rss url resp.feedEntries today ≠ [] →
      harvest_one_url F url today = harvest_rss url resp.feedEntries today) ∧
    (F url = some resp → harvest_rss url resp.feedEntries today = [] →
      harvest_one_url F url today = harvest_html url resp.soup today) ∧
    (tagCandidates soup.articles ≠ [] → htmlCandidates soup = tagCandidates soup.articles) ∧
    (tagCandidates soup.articles = [] →
      htmlCandidates soup =
        tagCandidates soup.h1 ++ tagCandidates soup.h2 ++ tagCandidates soup.h3) := by
  refine ⟨?_, ?_, ?_, ?_⟩
  · intro hF hne
    simp [harvest_one_url, hF, List.isEmpty_iff, hne]
  · intro hF he
    simp [harvest_one_url, hF, he]
  · intro hne
    simp [htmlCandidates, List.isEmpty_iff, hne]
  · intro he
    simp [htmlCandidates, he]

/-- Witness for C7: a response with feed entries takes the feed path, a
response with none falls back to HTML. -/
theorem c7_witness :
    harvest_one_url (fun _ => some respDemo) urlDemo todayDemo =
      harvest_rss urlDemo respDemo.feedEntries todayDemo ∧
    harvest_one_url (fun _ => some respNoFeed) urlDemo todayDemo =
      harvest_html urlDemo respNoFeed.soup todayDemo := by
  constructor
  · exact (c7_two_tier_order (fun _ => some respDemo) urlDemo todayDemo respDemo
      soupDemo).1 rfl (by decide)
  · exact (c7_two_tier_order (fun _ => some respNoFeed) urlDemo todayDemo respNoFeed
      soupDemo).2.1 rfl (by decide)

/-- Claim C8: a failed fetch contributes zero entries and aborts
nothing: the outlet loop is the independent concatenation of the
per-outlet results, and a URL on which the fetch fails yields `[]`.
In the model the fetch is a total function into `Option Response`, as
`fetch_url` catches every exception and returns `None`; no fetch error
propagates out of `harvest_all_outlets`. -/
theorem c8_fetch_failures_isolated (F : Str → Option Response) (today : Str)
    (urls : List Str) :
    harvest_all_outlets F today urls =
      (urls.map (fun u => harvest_one_url F u today)).flatten ∧
    ∀ u, F u = none → harvest_one_url F u today = [] := by
  constructor
  · induction urls with
    | nil => rfl
    | cons u us ih => simp [harvest_all_outlets, ih]
  · intro u h
    simp [harvest_one_url, h]

/-- Witness for C8: with a network that always fails, every outlet
contributes zero entries and the run still completes over the list. -/
theorem c8_witness :
    harvest_one_url (fun _ => none) urlDemo todayDemo = [] ∧
    harvest_all_outlets (fun _ => none) todayDemo [urlDemo, urlDemo] = [] := by
  have h := c8_fetch_failures_isolated (fun _ => none) todayDemo [urlDemo, urlDemo]
  refine ⟨h.2 urlDemo rfl, ?_⟩
  rw [h.1]
  simp [h.2 urlDemo rfl]

theorem splitScheme_http (t : Str) :
    splitScheme (chars ("http://") ++ t) = some (chars ("http"), '/' :: '/' :: t) := rfl

theorem splitScheme_https (t : Str) :
    splitScheme (chars ("https://") ++ t) = some (chars ("https"), '/' :: '/' :: t) := rfl

theorem urljoin_http_absolute (t href : Str) (h : splitScheme href = none) :
    beginsWith (chars ("http://")) (urljoin (chars ("http://") ++ t) href) = true := by
  rw [urljoin]
  split_ifs with h1 h2 h3 h4 h5 h6
  · exact beginsWith_self_append _ _
  · rw [h] at h2
    simp at h2
  · rw [splitScheme_http]
    obtain ⟨q, rfl⟩ := beginsWith_exists h3
    rfl
  · rfl
  · rfl
  · rfl
  · rfl

theorem urljoin_https_absolute (t href : Str) (h : splitScheme href = none) :
    beginsWith (chars ("https://")) (urljoin (chars ("https://") ++ t) href) = true := by
  rw [urljoin]
  split_ifs with h1 h2 h3 h4 h5 h6
  · exact beginsWith_self_append _ _
  · rw [h] at h2
    simp at h2
  · rw [splitScheme_https]
    obtain ⟨q, rfl⟩ := beginsWith_exists h3
    rfl
  · rfl
  · rfl
  · rfl
  · rfl

/-- Counterexample to claim C3 as stated: in the feed-extraction path a
relative href is NOT resolved against the outlet URL.  `harvest_rss`
stores the entry's link `/a` verbatim, while its resolution against the
outlet URL is `https://ex.com/a` — `feedparser` is handed only the
response body, never the outlet URL, and `harvest_rss` applies no
`urljoin`. -/
theorem c3_rss_relative_link_unresolved :
    (harvest_rss (chars ("https://ex.com/feed")) [relEntry] (chars ("2025-01-01"))).map
        Record.link = [chars ("/a")] ∧
    splitScheme (chars ("/a")) = none ∧
    urljoin (chars ("https://ex.com/feed")) (chars ("/a")) = chars ("https://ex.com/a") ∧
    chars ("/a") ≠ chars ("https://ex.com/a") := by
  refine ⟨by decide, by decide, by decide, by decide⟩

/-- Claim C3 (amended): relative links are normalized against the
source URL in the HTML-extraction path — every record `harvest_html`
returns carries `urljoin url href` for some candidate `(title, href)`,
and for an absolute `http://`/`https://` outlet URL the joined link is
itself absolute with the outlet's scheme.  In the feed-extraction path
the entry's link is stored as-is (whitespace-stripped), with no
resolution against the outlet URL. -/
theorem c3_link_normalization (url today : Str) (es : List FeedEntry) (soup : Soup)
    (r : Record) :
    (r ∈ harvest_html url soup today →
      ∃ p ∈ htmlCandidates soup, r.title = p.1 ∧ r.link = urljoin url p.2) ∧
    (∀ t href, url = chars ("http://") ++ t → splitScheme href = none →
      beginsWith (chars ("http://")) (urljoin url href) = true) ∧
    (∀ t href, url = chars ("https://") ++ t → splitScheme href = none →
      beginsWith (chars ("https://")) (urljoin url href) = true) ∧
    (r ∈ harvest_rss url es today →
      ∃ e ∈ es, r.title = pyStrip e.title ∧ r.link = pyStrip e.link) := by
  refine ⟨?_, ?_, ?_, ?_⟩
  · intro h
    rw [harvest_html] at h
    obtain ⟨p, hp, rfl⟩ := dedupLoop_mem h
    exact ⟨p, List.take_subset _ _ hp, rfl, rfl⟩
  · rintro t href rfl hn
    exact urljoin_http_absolute t href hn
  · rintro t href rfl hn
    exact urljoin_https_absolute t href hn
  · intro h
    rw [harvest_rss] at h
    split at h
    · simp at h
    · obtain ⟨e, he, rfl, -, -⟩ := rssLoop_mem h
      exact ⟨e, List.take_subset _ _ he, rfl, rfl⟩

/-- Witness for C3 (amended) at concrete inputs: the HTML record built
from `soupDemo`, an absolute join for a concrete relative href, and the
verbatim feed link. -/
theorem c3_witness :
    (∃ p ∈ htmlCandidates soupDemo,
      recHtmlDemo.title = p.1 ∧ recHtmlDemo.link = urljoin urlDemo p.2) ∧
    beginsWith (chars ("http://")) (urljoin (chars ("http://x.com/f")) (chars ("/a"))) = true ∧
    (∃ e ∈ [feedDemo], recDemo.title = pyStrip e.title ∧ recDemo.link = pyStrip e.link) := by
  refine ⟨?_, ?_, ?_⟩
  · exact (c3_link_normalization urlDemo todayDemo [feedDemo] soupDemo recHtmlDemo).1
      (by decide)
  · exact (c3_link_normalization (chars ("http://x.com/f")) todayDemo [feedDemo] soupDemo
      recHtmlDemo).2.1 (chars ("x.com/f")) (chars ("/a")) (by decide) (by decide)
  · exact (c3_link_normalization urlDemo todayDemo [feedDemo] soupDemo recDemo).2.2.2
      (by decide)

theorem appendLoop_content (es : List Record) (existing : List Str) (content : Str)
    (count : Nat) :
    ∃ w, (appendLoop existing content count es).1 = content ++ w := by
  induction es generalizing existing content count with
  | nil => exact ⟨[], by simp [appendLoop]⟩
  | cons r rs ih =>
    simp only [appendLoop]
    split
    · exact ih _ _ _
    · obtain ⟨w, hw⟩ := ih (canonicalLine r :: existing) (content ++ writerowStr r) (count + 1)
      exact ⟨writerowStr r ++ w, by rw [hw, List.append_assoc]⟩

theorem pyLinesAux_nl (acc b : Str) :
    pyLinesAux acc ('\n' :: b) = (acc.reverse ++ ['\n']) :: pyLinesAux [] b := by
  cases b with
  | nil => simp [pyLinesAux]
  | cons d rest => simp [pyLinesAux]

theorem pyLinesAux_cr_nl (acc b : Str) :
    pyLinesAux acc ('\r' :: '\n' :: b) = (acc.reverse ++ ['\r', '\n']) :: pyLinesAux [] b := by
  simp [pyLinesAux]

theorem pyLinesAux_cr_other (acc : Str) (d : Char) (b : Str) (hd : d ≠ '\n') :
    pyLinesAux acc ('\r' :: d :: b) = (acc.reverse ++ ['\r']) :: pyLinesAux [] (d :: b) := by
  simp [pyLinesAux, hd]

theorem pyLinesAux_other (acc : Str) (c : Char) (b : Str) (hr : c ≠ '\r') (hn : c ≠ '\n') :
    pyLinesAux acc (c :: b) = pyLinesAux (c :: acc) b := by
  cases b with
  | nil => simp [pyLinesAux, hr, hn]
  | cons d rest => simp [pyLinesAux, hr, hn]

theorem pyLinesAux_append : ∀ (a : Str), a.getLast? = some '\n' →
    ∀ (acc b : Str), pyLinesAux acc (a ++ b) = pyLinesAux acc a ++ pyLinesAux [] b
  | [], h => by simp at h
  | [c], h => by
    intro acc b
    have hc : c = '\n' := by simpa using h
    subst hc
    rw [List.singleton_append, pyLinesAux_nl, pyLinesAux_nl]
    simp [pyLinesAux]
  | c :: d :: a2, h => by
    intro acc b
    have hd2 : (d :: a2).getLast? = some '\n' := by
      rwa [List.getLast?_cons_cons] at h
    by_cases hc : c = '\r'
    · subst hc
      by_cases hd : d = '\n'
      · subst hd
        rw [List.cons_append, List.cons_append, pyLinesAux_cr_nl, pyLinesAux_cr_nl]
        cases a2 with
        | nil => simp [pyLinesAux]
        | cons e a3 =>
          have ha3 : (e :: a3).getLast? = some '\n' := by
            rwa [List.getLast?_cons_cons] at hd2
          rw [pyLinesAux_append (e :: a3) ha3 [] b]
          simp
      · rw [List.cons_append, List.cons_append, pyLinesAux_cr_other _ _ _ hd,
          pyLinesAux_cr_other _ _ _ hd, ← List.cons_append,
          pyLinesAux_append (d :: a2) hd2 [] b]
        simp
    · by_cases hn : c = '\n'
      · subst hn
        rw [List.cons_append, pyLinesAux_nl, pyLinesAux_nl,
          pyLinesAux_append (d :: a2) hd2 [] b]
        simp
      · rw [List.cons_append, pyLinesAux_other _ _ _ hc hn, pyLinesAux_other _ _ _ hc hn,
          pyLinesAux_append (d :: a2) hd2 (c :: acc) b]

theorem pyLines_append (a b : Str) (h : a.getLast? = some '\n') :
    pyLines (a ++ b) = pyLines a ++ pyLines b :=
  pyLinesAux_append a h [] b

/-- Claim C9: the log is append-only.  The previous contents are a
prefix of the new contents — nothing is updated or deleted — and for a
well-terminated (or empty) log file the previously existing lines are,
unchanged and in order, a prefix of the new file's lines. -/
theorem c9_append_only (content : Str) (entries : List Record) :
    content <+: (append_entries_to_csv content entries).1 ∧
    (content.getLast? = some '\n' ∨ content = [] →
      pyLines content <+: pyLines (append_entries_to_csv content entries).1) := by
  obtain ⟨w, hw⟩ := appendLoop_content entries (load_existing_lines content) content 0
  have hw' : (append_entries_to_csv content entries).1 = content ++ w := hw
  constructor
  · exact ⟨w, hw'.symm⟩
  · rintro (h | rfl)
    · rw [hw', pyLines_append _ _ h]
      exact List.prefix_append _ _
    · exact List.nil_prefix

/-- Witness for C9 at a concrete well-terminated log and one record. -/
theorem c9_witness :
    chars ("a,b,c,d\r\n") <+: (append_entries_to_csv (chars ("a,b,c,d\r\n")) [rec0]).1 ∧
    pyLines (chars ("a,b,c,d\r\n")) <+:
      pyLines (append_entries_to_csv (chars ("a,b,c,d\r\n")) [rec0]).1 := by
  have h := c9_append_only (chars ("a,b,c,d\r\n")) [rec0]
  exact ⟨h.1, h.2 (Or.inl (by decide))⟩

theorem scanQuoted_quote_other (d : Char) (xs : Str) (hd : d ≠ '"') :
    scanQuoted ('"' :: d :: xs) = some ([], d :: xs) := by
  simp [scanQuoted, hd]

theorem scanQuoted_quote_quote (xs : Str) :
    scanQuoted ('"' :: '"' :: xs) = (scanQuoted xs).map (fun p => ('"' :: p.1, p.2)) := by
  simp [scanQuoted]

theorem scanQuoted_cons (c x : Char) (xs : Str) (hc : c ≠ '"') :
    scanQuoted (c :: x :: xs) = (scanQuoted (x :: xs)).map (fun p => (c :: p.1, p.2)) := by
  simp [scanQuoted, hc]

theorem scanQuoted_escape (f rest : Str) (h : rest.head? ≠ some '"') :
    scanQuoted (escapeField f ++ '"' :: rest) = some (f, rest) := by
  induction f with
  | nil =>
    cases rest with
    | nil => rfl
    | cons d ds =>
      have hd : d ≠ '"' := by
        intro hdd
        exact h (by simp [hdd])
      simpa [escapeField] using scanQuoted_quote_other d ds hd
  | cons c f ih =>
    by_cases hc : c = '"'
    · subst hc
      have he : escapeField ('"' :: f) = '"' :: '"' :: escapeField f := by simp [escapeField]
      rw [he, List.cons_append, List.cons_append, scanQuoted_quote_quote, ih]
      rfl
    · have he : escapeField (c :: f) = c :: escapeField f := by simp [escapeField, hc]
      rw [he, List.cons_append]
      obtain ⟨x, xs, hx⟩ : ∃ x xs, escapeField f ++ '"' :: rest = x :: xs := by
        cases hef : escapeField f with
        | nil => exact ⟨'"', rest, by simp [hef]⟩
        | cons y ys => exact ⟨y, ys ++ '"' :: rest, by simp [hef]⟩
      rw [hx, scanQuoted_cons _ _ _ hc, ← hx, ih]
      rfl

theorem scanRaw_no_comma : ∀ (f rest : Str), (∀ c ∈ f, c ≠ ',') →
    (rest = [] ∨ rest.head? = some ',') → scanRaw (f ++ rest) = (f, rest)
  | [], rest, _, h => by
    rcases h with rfl | hh
    · rfl
    · cases rest with
      | nil => simp at hh
      | cons d ds =>
        have hd : d = ',' := by simpa using hh
        subst hd
        simp [scanRaw]
  | c :: f, rest, hf, h => by
    have hc : c ≠ ',' := hf c (List.mem_cons_self _ _)
    have ih := scanRaw_no_comma f rest (fun x hx => hf x (List.mem_cons_of_mem _ hx)) h
    rw [List.cons_append]
    simp [scanRaw, hc, ih]

theorem needsQuote_false_spec {f : Str} (h : needsQuote f = false) :
    ∀ c ∈ f, c ≠ ',' ∧ c ≠ '"' := by
  intro c hc
  simp only [needsQuote, List.any_eq_false] at h
  have hcs := h c hc
  simp [isCsvSpecial] at hcs
  exact ⟨hcs.1.1.1, hcs.1.1.2⟩

theorem parseField_writeField (f rest : Str) (h : rest = [] ∨ rest.head? = some ',') :
    parseField (writeField f ++ rest) = (f, rest) := by
  rw [writeField]
  split_ifs with hq
  · have hr : rest.head? ≠ some '"' := by
      rcases h with rfl | hh
      · simp
      · rw [hh]
        simp
    simp only [quoteWrap, List.cons_append, List.append_assoc, List.singleton_append]
    simp [parseField, scanQuoted_escape f rest hr]
  · have hs := needsQuote_false_spec (by simpa using hq)
    cases f with
    | nil =>
      rcases h with rfl | hh
      · rfl
      · cases rest with
        | nil => simp at hh
        | cons d ds =>
          have hd : d = ',' := by simpa using hh
          subst hd
          simp [parseField, scanRaw]
    | cons c f' =>
      have hc : c ≠ '"' := (hs c (List.mem_cons_self _ _)).2
      rw [List.cons_append]
      simp only [parseField]
      rw [if_neg (by simp [hc]), ← List.cons_append]
      exact scanRaw_no_comma (c :: f') rest (fun x hx => (hs x hx).1) h

theorem parseFields_step (m : Nat) (f R : Str) :
    parseFields (m + 1) (writeField f ++ ',' :: R) = f :: parseFields m R := by
  have key : parseField (writeField f ++ ',' :: R) = (f, ',' :: R) :=
    parseField_writeField f (',' :: R) (Or.inr rfl)
  simp only [parseFields, key]

theorem parseFields_last (m : Nat) (f : Str) :
    parseFields (m + 1) (writeField f) = [f] := by
  have key : parseField (writeField f) = (f, []) := by
    simpa using parseField_writeField f [] (Or.inl rfl)
  simp only [parseFields, key]

theorem parseFields_serializeRow (r : Record) (m : Nat) :
    parseFields (m + 1 + 1 + 1 + 1) (serializeRow r) =
      [r.date, r.domain, r.title, r.link] := by
  have e1 : serializeRow r =
      writeField r.date ++ ',' :: (writeField r.domain ++ ',' ::
        (writeField r.title ++ ',' :: writeField r.link)) := by
    simp [serializeRow]
  rw [e1, parseFields_step, parseFields_step, parseFields_step, parseFields_last]

theorem serializeRow_length_ge (r : Record) : 3 ≤ (serializeRow r).length := by
  simp [serializeRow]
  omega

/-- Claim C4: a title containing quote characters round-trips through
the persisted format unchanged — parsing the `csv.writer` line of a
record back per CSV rules recovers every field, the title included,
exactly. -/
theorem c4_title_quote_roundtrip (r : Record) (h : '"' ∈ r.title) :
    parseCSVRow (serializeRow r) = [r.date, r.domain, r.title, r.link] := by
  obtain ⟨m, hm⟩ : ∃ m, (serializeRow r).length + 1 = m + 1 + 1 + 1 + 1 := by
    have h3 := serializeRow_length_ge r
    exact ⟨(serializeRow r).length - 3, by omega⟩
  rw [parseCSVRow, hm]
  exact parseFields_serializeRow r m

/-- Witness for C4 at a record whose title contains quotes. -/
theorem c4_witness :
    '"' ∈ recQ.title ∧
    parseCSVRow (serializeRow recQ) = [recQ.date, recQ.domain, recQ.title, recQ.link] :=
  ⟨by decide, c4_title_quote_roundtrip recQ (by decide)⟩
